import Mathlib

/-!
Verification development for the mediaconv batch video-conversion pipeline
(`src/main.py`).  The Python source is shallowly embedded: Python strings are
`List Char`, the filesystem folders are explicit lists of entries threaded
through the functions, and the external `ffprobe`/`ffmpeg` engines are
oracles passed as parameters.  Each embedded definition mirrors one function
of the source; `while` loops over a finite filesystem are modelled with
explicit fuel that is provably sufficient.
-/

namespace Mediaconv

/-- Python `str` values are modelled as lists of characters. -/
def str (s : String) : List Char := s.toList

/-- Constant `CONVERT_MEDIA_FOLDER = "convert_media"` from the source. -/
def CONVERT_MEDIA_FOLDER : List Char := str "convert_media"

/-- Constant `CONVERTED_MEDIA_FOLDER = "converted_media"` from the source. -/
def CONVERTED_MEDIA_FOLDER : List Char := str "converted_media"

/-- Embeds `os.path.join(d, n)` on a POSIX system: `d ++ "/" ++ n`. -/
def joinPath (d n : List Char) : List Char := d ++ '/' :: n

/-- The raw character set `r'~\/*?<>|:" '` used by `prepare_files` to decide
whether a filename needs sanitizing (note the trailing space). -/
def reservedChars : List Char := ['~', '\\', '/', '*', '?', '<', '>', '|', ':', '"', ' ']

/-- The sanitizing condition of `prepare_files`:
`any(char in r'~\/*?<>|:" ' for char in file)`. -/
def containsReserved (file : List Char) : Bool :=
  file.any (fun c => reservedChars.contains c)

/-- Membership in the regex class `[a-zA-Z0-9_ .]`; `re.sub(r"[^a-zA-Z0-9_ .]", "", file)`
keeps exactly these characters. -/
def allowedChar (c : Char) : Bool :=
  ('a' ≤ c && c ≤ 'z') || ('A' ≤ c && c ≤ 'Z') || ('0' ≤ c && c ≤ '9')
    || c = '_' || c = ' ' || c = '.'

/-- Characters allowed in a fully sanitized name: the class `[A-Za-z0-9_.]`
(no space).  This is the character class named by the spec's testable property. -/
def cleanChar (c : Char) : Bool := allowedChar c && !(c = ' ')

/-- Lines 127-130 of `prepare_files`: strip every character outside
`[a-zA-Z0-9_ .]`, then replace the remaining spaces with underscores. -/
def sanitizedName (file : List Char) : List Char :=
  (file.filter allowedChar).map (fun c => if c = ' ' then '_' else c)

/-- Embeds `os.path.splitext` restricted to basenames (CPython semantics): split at
the last dot provided some character strictly before it is not a dot;
otherwise the extension is empty. -/
def splitext (p : List Char) : List Char × List Char :=
  if (p.reverse.takeWhile (fun c => c ≠ '.')).length < p.length then
    if (p.take (p.length - (p.reverse.takeWhile (fun c => c ≠ '.')).length - 1)).any
        (fun c => c ≠ '.') then
      (p.take (p.length - (p.reverse.takeWhile (fun c => c ≠ '.')).length - 1),
       p.drop (p.length - (p.reverse.takeWhile (fun c => c ≠ '.')).length - 1))
    else (p, [])
  else (p, [])

/-- The decimal digit character for `k < 10` (as produced by Python `str`). -/
def digitChar (k : Nat) : Char := Char.ofNat (48 + k)

/-- Fuelled decimal rendering helper; `fuel ≥ n + 1` always suffices. -/
def toDigitsAux : Nat → Nat → List Char
  | 0, _ => []
  | fuel + 1, n =>
    if n < 10 then [digitChar n] else toDigitsAux fuel (n / 10) ++ [digitChar (n % 10)]

/-- Python `str(n)` for a natural number `n`: its decimal digits. -/
def toDigits (n : Nat) : List Char := toDigitsAux (n + 1) n

/-- Reads a decimal digit string back to the number it denotes. -/
def fromDigits (ds : List Char) : Nat :=
  ds.foldl (fun a c => a * 10 + (c.toNat - 48)) 0

/-- The candidate name `f"{file_prefix}_{counter}{file_extension}"` checked by
the collision loop of `prepare_files`. -/
def sanCand (pre ext : List Char) (counter : Nat) : List Char :=
  pre ++ '_' :: (toDigits counter ++ ext)

/-- The `while` loop at lines 136-141 of `prepare_files`:
`while os.path.exists(join(folder, f"{file_prefix}_{counter}{file_extension}")):
new_file_name = f"{file_prefix}_{counter}{file_extension}"; counter += 1`.
The loop tests only the suffixed candidate, never `new_file_name` itself, and
on exit `new_file_name` is the last candidate that was found to exist. -/
def collisionLoop (fs : List (List Char)) (pre ext : List Char) :
    List Char → Nat → Nat → List Char
  | name, _, 0 => name
  | name, counter, fuel + 1 =>
    if sanCand pre ext counter ∈ fs then
      collisionLoop fs pre ext (sanCand pre ext counter) (counter + 1) fuel
    else name

/-- The `new_file_name` computed by `prepare_files` for one file: sanitize,
split into stem and extension, then run the collision loop starting at
`counter = 1`.  `fs` is the current set of names in `convert_media`; fuel
`fs.length + 1` dominates the number of loop iterations. -/
def newNameOf (fs : List (List Char)) (file : List Char) : List Char :=
  collisionLoop fs (splitext (sanitizedName file)).1 (splitext (sanitizedName file)).2
    (sanitizedName file) 1 (fs.length + 1)

/-- POSIX `os.rename(join(folder, old), join(folder, new))` on the set of
names in the folder: `old` disappears and `new` is present afterwards; an
existing regular file at `new` is silently replaced. -/
def renameFS (fs : List (List Char)) (old new : List Char) : List (List Char) :=
  let fs' := fs.erase old
  if new ∈ fs' then fs' else fs' ++ [new]

/-- The body of the `for file in files_in_convert` loop of `prepare_files`:
sanitize and rename one file if its name contains a reserved character. -/
def processFile (fs : List (List Char)) (file : List Char) : List (List Char) :=
  if containsReserved file then
    let newName := newNameOf fs file
    if file ≠ newName then renameFS fs file newName else fs
  else fs

/-- Embeds `prepare_files` from the source: a snapshot of the folder's regular files
is taken once (`files_in_convert`), and each is processed in listing order
while the folder contents are mutated in place. -/
def prepare_files (fs0 : List (List Char)) : List (List Char) :=
  fs0.foldl processFile fs0

/-- One stream object of the JSON returned by the metadata `ffprobe` call:
the fields read by `inspect_files` / `inspect_converted_files`.  `codec_name`
and `display_aspect_ratio` are accessed only after an `in` test, so they are
optional; `codec_type`, `width`, `height` are accessed unconditionally. -/
structure StreamInfo where
  codec_type : List Char
  codec_name : Option (List Char)
  width : Int
  height : Int
  display_aspect_ratio : Option (List Char)

/-- The parsed JSON of a metadata probe: the `format` fields and the stream
list read by the inspectors.  Numeric fields are modelled as exact rationals
where the source uses IEEE doubles; all claims are evaluated away from
rounding ties, where the two agree. -/
structure MetaData where
  duration : ℚ
  bit_rate : ℚ
  size : ℚ
  streams : List StreamInfo

/-- The external collaborators of the pipeline, modelled as oracles keyed by
the full path handed to the subprocess: `probeStream` is the
codec-type probe of `validate_files`, `probeMeta` the JSON metadata probe of
the inspectors (returning raw stdout), `parseMeta` is `json.loads` plus the
dictionary accesses (`none` models `JSONDecodeError`/`KeyError`), and
`engine` is the `ffmpeg` invocation, returning (returncode, stderr).  A
`.error` result of a probe is a `subprocess.CalledProcessError` carrying the
captured output. -/
structure Oracles where
  probeStream : List Char → Except (List Char) (List Char)
  probeMeta : List Char → Except (List Char) (List Char)
  parseMeta : List Char → Option MetaData
  engine : List Char → List Char → Nat × List Char

/-- Python `%` on numbers, for a positive modulus: `a - b * ⌊a / b⌋`. -/
def qmod (a b : ℚ) : ℚ := a - b * ⌊a / b⌋

/-- Python `str(i)` for an integer. -/
def intChars (i : Int) : List Char :=
  if i < 0 then '-' :: toDigits (-i).toNat else toDigits i.toNat

/-- Python `"{:02}".format(i)`: pad the rendering to width 2 with zeros. -/
def pad2int (i : Int) : List Char :=
  let s := intChars i
  List.replicate (2 - s.length) '0' ++ s

/-- Renders a value given in rounded centiunits: unpadded integer part, then
exactly two decimals. -/
def fmt2fInt (c : Int) : List Char :=
  if c < 0 then '-' :: (toDigits ((-c).toNat / 100) ++ '.' :: pad2int (((-c).toNat : Int) % 100))
  else toDigits (c.toNat / 100) ++ '.' :: pad2int ((c.toNat : Int) % 100)

/-- Python `"{:.2f}".format(q)` for a nonnegative value: the value rounded to
centiunits, printed with an unpadded integer part and exactly two decimals.
(The source rounds the IEEE double half-to-even; on exact rationals away from
ties, as in every claim, half-up agrees.) -/
def fmt2f (q : ℚ) : List Char := fmt2fInt ⌊q * 100 + 1 / 2⌋

/-- The duration formatting of the inspectors (lines 224-228):
`"{:02}:{:02}:{:.2f}".format(int(d // 3600), int((d % 3600) // 60), d % 60)`. -/
def formatDuration (d : ℚ) : List Char :=
  pad2int ⌊d / 3600⌋ ++ ':' :: (pad2int ⌊qmod d 3600 / 60⌋ ++ ':' :: fmt2f (qmod d 60))

/-- Embeds `"{:.2f} kb/s".format(bit_rate / 1000)` from the inspectors. -/
def fmtBitrate (b : ℚ) : List Char := fmt2f (b / 1000) ++ str " kb/s"

/-- Embeds `"{:.2f} MB".format(size / (1024 * 1024))` from the inspectors. -/
def fmtSize (s : ℚ) : List Char := fmt2f (s / (1024 * 1024)) ++ str " MB"

/-- Python `str.strip()` (over ASCII whitespace). -/
def pyStrip (s : List Char) : List Char :=
  ((s.dropWhile Char.isWhitespace).reverse.dropWhile Char.isWhitespace).reverse

/-- The regular-file basenames of a folder listing (entries paired with their
`os.path.isfile` status). -/
def outNames (fs : List (List Char × Bool)) : List (List Char) := fs.map Prod.fst

/-- The first candidate basename of `get_output_file_path`:
`f"{file_prefix}_converted.mp4"`. -/
def outBase (pre : List Char) : List Char := pre ++ str "_converted.mp4"

/-- The suffixed candidate basename of `get_output_file_path`:
`f"{file_prefix}_converted_{counter}.mp4"`. -/
def outCand (pre : List Char) (n : Nat) : List Char :=
  pre ++ str "_converted_" ++ toDigits n ++ str ".mp4"

/-- The `while os.path.exists(output_file_path)` loop of `get_output_file_path`
(lines 331-337), over basenames of the output folder: while the current name
exists, move to the next suffixed candidate. -/
def allocLoop (names : List (List Char)) (pre : List Char) :
    List Char → Nat → Nat → List Char
  | name, _, 0 => name
  | name, counter, fuel + 1 =>
    if name ∈ names then allocLoop names pre (outCand pre counter) (counter + 1) fuel
    else name

/-- The basename chosen by `get_output_file_path` for `file`, given the
current contents of `converted_media`.  Fuel `fs.length + 2` dominates the
number of loop iterations (proved below). -/
def allocName (fs : List (List Char × Bool)) (file : List Char) : List Char :=
  allocLoop (outNames fs) (splitext file).1 (outBase (splitext file).1) 1 (fs.length + 2)

/-- Embeds `get_output_file_path` from the source: the chosen basename joined onto
`CONVERTED_MEDIA_FOLDER`. -/
def get_output_file_path (fs : List (List Char × Bool)) (file : List Char) : List Char :=
  joinPath CONVERTED_MEDIA_FOLDER (allocName fs file)

/-- The error line logged by `validate_files` when `ffprobe` exits non-zero. -/
def validateErrLine (file : List Char) : List Char :=
  str "Error in function `validate_files` running ffprobe for file \"" ++ file ++ str "\"."

/-- Python `pat in s` on strings: `pat` occurs contiguously in `s`. -/
def hasSubstr (pat : List Char) : List Char → Bool
  | [] => pat.isEmpty
  | c :: rest => pat.isPrefixOf (c :: rest) || hasSubstr pat rest

/-- Embeds `"video" in ffprobe_output.lower()` from `validate_files`. -/
def containsVideo (out : List Char) : Bool :=
  hasSubstr (str "video") (out.map Char.toLower)

/-- Embeds `validate_files` from the source: filter the discovered files down to
those whose codec-type probe succeeds and mentions a video stream, returning
the valid files in discovery order together with the error log lines.  A
`CalledProcessError` (`probeStream` returning `.error`) is caught, logged,
and the loop continues with the next file. -/
def validate_files (o : Oracles) : List (List Char) → List (List Char) × List (List Char)
  | [] => ([], [])
  | file :: rest =>
    let r := validate_files o rest
    match o.probeStream (joinPath CONVERT_MEDIA_FOLDER file) with
    | .ok out =>
      if containsVideo out then (file :: r.1, r.2)
      else (r.1,
        (str "File \"" ++ file ++ str "\" does not contain a valid video stream.")
          :: (str "ffprobe output for " ++ file ++ str ": " ++ pyStrip out) :: r.2)
    | .error e =>
      (r.1, validateErrLine file :: (str "Returned from ffprobe: " ++ pyStrip e) :: r.2)

/-- Embeds `convert_video` from the source: allocate the output path, invoke the
engine, and log success or failure according to the return code alone; a
non-zero exit is logged (with the stripped stderr) and does not raise.  The
new state of `converted_media`, the log lines, and the per-file success flag
are returned.  (Engine abstraction: the output file is present exactly when
the engine exits 0.) -/
def convert_video (o : Oracles) (fsOut : List (List Char × Bool)) (file : List Char) :
    List (List Char × Bool) × List (List Char) × Bool :=
  let output_file := get_output_file_path fsOut file
  let res := o.engine (joinPath CONVERT_MEDIA_FOLDER file) output_file
  if res.1 = 0 then
    (fsOut ++ [(allocName fsOut file, true)],
     [str "Start file conversion for file " ++ file ++ str ".",
      str "Conversion complete for file: " ++ file ++ str "."], true)
  else
    (fsOut,
     [str "Start file conversion for file " ++ file ++ str ".",
      str "Error converting file \"" ++ file ++ str "\": " ++ pyStrip res.2 ++ str "."], false)

/-- The `for file in valid_video_files: convert_video(file)` loop of
`__main__`: each file is converted in order with the output-folder state
threaded through; the per-file outcomes are collected. -/
def convertBatch (o : Oracles) (fsOut : List (List Char × Bool)) :
    List (List Char) → List (List Char × Bool) × List (List Char) × List (List Char × Bool)
  | [] => (fsOut, [], [])
  | file :: rest =>
    let s := convert_video o fsOut file
    let r := convertBatch o s.1 rest
    (r.1, s.2.1 ++ r.2.1, (file, s.2.2) :: r.2.2)

/-- Prepends already-emitted log lines to the outcome of the rest of an
inspection; an exception (`.error`) keeps the lines logged before it. -/
def prependE (pre : List (List Char)) :
    Except (List (List Char)) (List (List Char)) → Except (List (List Char)) (List (List Char))
  | .ok l => .ok (pre ++ l)
  | .error l => .error (pre ++ l)

/-- The per-stream log lines of the inspectors (lines 245-260). -/
def streamLogs (s : StreamInfo) : List (List Char) :=
  if s.codec_type = str "video" then
    (match s.codec_name with
     | some c => [str "Video Codec: " ++ c]
     | none => [])
    ++ [str "Resolution: " ++ intChars s.width ++ 'x' :: intChars s.height]
    ++ [match s.display_aspect_ratio with
        | some r => str "Display Aspect Ratio: " ++ r
        | none => str "Display Aspect Ratio: Not available"]
  else if s.codec_type = str "audio" then [str "Audio: Present"] else []

/-- The per-file report block of the inspectors; `label` is `"File: "` in
`inspect_files` and `"Converted File: "` in `inspect_converted_files`. -/
def fileReport (label file : List Char) (m : MetaData) : List (List Char) :=
  (label ++ file)
    :: (str "Size: " ++ fmtSize m.size)
    :: (str "Duration: " ++ formatDuration m.duration)
    :: (str "Bitrate: " ++ fmtBitrate m.bit_rate)
    :: (m.streams.map streamLogs).flatten

/-- The ffprobe-failure line of the inspectors (`str(e)` modelled by the
error payload). -/
def inspectErrLine (errHead file e : List Char) : List Char :=
  errHead ++ file ++ str "\": " ++ e

/-- The shared per-file loop of the two inspectors.  A probe failure
(`CalledProcessError`) is caught by the `except` clause: its line is logged
and the loop continues.  A successful probe whose output does not parse
(`json.loads` raising, or a missing dictionary key) is NOT caught — the
exception propagates, modelled by `.error` carrying the lines logged so
far. -/
def inspectLoop (o : Oracles) (folder label errHead : List Char) :
    List (List Char) → Except (List (List Char)) (List (List Char))
  | [] => .ok []
  | file :: rest =>
    match o.probeMeta (joinPath folder file) with
    | .error e =>
      prependE [inspectErrLine errHead file e] (inspectLoop o folder label errHead rest)
    | .ok raw =>
      match o.parseMeta raw with
      | none => .error []
      | some m => prependE (fileReport label file m) (inspectLoop o folder label errHead rest)

/-- The inspection loop of `inspect_files` over files of `convert_media`. -/
def inspectFilesLoop (o : Oracles) : List (List Char) → Except (List (List Char)) (List (List Char)) :=
  inspectLoop o CONVERT_MEDIA_FOLDER (str "File: ")
    (str "Error in `inspect_file` function running ffprobe for file \"")

/-- The inspection loop of `inspect_converted_files` over files of
`converted_media`. -/
def inspectConvLoop (o : Oracles) : List (List Char) → Except (List (List Char)) (List (List Char)) :=
  inspectLoop o CONVERTED_MEDIA_FOLDER (str "Converted File: ")
    (str "Error in `inspect_converted_files` function running ffprobe for file \"")

/-- Embeds `inspect_files` from the source: the early-return notice for an empty
argument, the header, the per-file loop, and the completion footer (reached
only if no exception escapes the loop). -/
def inspect_files (o : Oracles) (valid_video_files : List (List Char)) :
    Except (List (List Char)) (List (List Char)) :=
  if valid_video_files = [] then
    .ok [str "No valid video files found in the convert_media folder."]
  else
    prependE [str "Inspecting validated files:"]
      (match inspectFilesLoop o valid_video_files with
       | .ok l => .ok (l ++ [str "File inspection completed."])
       | .error l => .error l)

/-- Embeds `inspect_converted_files` from the source: list the regular files of
`converted_media` at call time, then proceed as `inspect_files` with the
converted-file wording. -/
def inspect_converted_files (o : Oracles) (entries : List (List Char × Bool)) :
    Except (List (List Char)) (List (List Char)) :=
  if (entries.filter fun e => e.2).map (fun e => e.1) = [] then
    .ok [str "No converted video files found in the converted_media folder."]
  else
    prependE [str "Inspecting converted files:"]
      (match inspectConvLoop o ((entries.filter fun e => e.2).map fun e => e.1) with
       | .ok l => .ok (l ++ [str "Converted file inspection completed."])
       | .error l => .error l)

/-- The log lines carried by the outcome of a pipeline stage, whether it
completed (`.ok`) or an exception escaped (`.error`). -/
def payloadOf : Except (List (List Char)) (List (List Char)) → List (List Char)
  | .ok l => l
  | .error l => l

/-- The final log line of `__main__`. -/
def completeLine (batch_id : List Char) : List Char :=
  str "Processing complete for batch ID " ++ batch_id ++ str "."

/-- The tail of `__main__` (lines 441-449), after `valid_video_files` has
been computed: the bracketed inspect/convert/inspect stages run only when the
validated set is non-empty, and the completion line is logged afterwards.  An
uncaught exception in a stage aborts the run (`.error` carries the lines
logged before it). -/
def mainAfterValidate (o : Oracles) (fsOut : List (List Char × Bool))
    (valid_video_files : List (List Char)) (batch_id : List Char) :
    Except (List (List Char)) (List (List Char)) :=
  if valid_video_files = [] then .ok [completeLine batch_id]
  else
    match inspect_files o valid_video_files with
    | .error l => .error l
    | .ok pre =>
      match inspect_converted_files o (convertBatch o fsOut valid_video_files).1 with
      | .error l => .error (pre ++ (convertBatch o fsOut valid_video_files).2.1 ++ l)
      | .ok post =>
        .ok (pre ++ (convertBatch o fsOut valid_video_files).2.1 ++ post
          ++ [completeLine batch_id])

/-- The body of the `prepare_files` loop with the outcome of each
`os.rename` call supplied by an oracle `ok`: the state carries the folder
contents and the list of rename calls performed so far.  A failing rename
raises `OSError`, which `prepare_files` does not catch — modelled by
`.error` carrying the failing (old, new) pair and the renames already
performed.  A rename is attempted only under the `if file != new_file_name`
guard, exactly as in the source. -/
def stepR (ok : List Char → List Char → Bool)
    (st : List (List Char) × List (List Char × List Char)) (file : List Char) :
    Except ((List Char × List Char) × List (List Char × List Char))
      (List (List Char) × List (List Char × List Char)) :=
  if containsReserved file then
    if file ≠ newNameOf st.1 file then
      if ok file (newNameOf st.1 file) then
        .ok (renameFS st.1 file (newNameOf st.1 file), st.2 ++ [(file, newNameOf st.1 file)])
      else .error ((file, newNameOf st.1 file), st.2)
    else .ok st
  else .ok st

/-- The `for file in files_in_convert` loop of `prepare_files` under the
rename oracle: an uncaught rename exception aborts the loop at once. -/
def prepLoopR (ok : List Char → List Char → Bool) :
    List (List Char) × List (List Char × List Char) → List (List Char) →
    Except ((List Char × List Char) × List (List Char × List Char))
      (List (List Char) × List (List Char × List Char))
  | st, [] => .ok st
  | st, file :: rest =>
    match stepR ok st file with
    | .ok st' => prepLoopR ok st' rest
    | .error e => .error e

/-- Embeds `prepare_files` under the rename oracle, from the initial folder
snapshot. -/
def prepare_filesR (ok : List Char → List Char → Bool) (fs0 : List (List Char)) :
    Except ((List Char × List Char) × List (List Char × List Char))
      (List (List Char) × List (List Char × List Char)) :=
  prepLoopR ok (fs0, []) fs0

/-- All `os.rename` calls attempted during a run of `prepare_filesR`,
including the one that failed (if any). -/
def attemptedRenames :
    Except ((List Char × List Char) × List (List Char × List Char))
      (List (List Char) × List (List Char × List Char)) → List (List Char × List Char)
  | .ok st => st.2
  | .error e => e.2 ++ [e.1]

/-- A rename oracle that fails exactly on renaming `a b.mov`. -/
def ok7 : List Char → List Char → Bool := fun old _ => old != str "a b.mov"

/-- A fixed parsed-metadata value used by the concrete oracles. -/
def mTest : MetaData := ⟨0, 0, 0, []⟩

/-- A concrete oracle whose metadata probe succeeds on every file but whose
output parses only for `convert_media/good.mov`: every other probe output is
malformed JSON. -/
def oTest : Oracles :=
  ⟨fun _ => .ok (str "video"), fun p => .ok p,
   fun raw => if raw = joinPath CONVERT_MEDIA_FOLDER (str "good.mov") then some mTest else none,
   fun _ _ => (0, [])⟩

/-- A concrete oracle on which every probe succeeds and every probe output
parses, and on which every transcode fails with exit code 1. -/
def oAll : Oracles :=
  ⟨fun _ => .ok (str "video"), fun _ => .ok [], fun _ => some mTest, fun _ _ => (1, [])⟩

/-- A concrete oracle on which both probes fail with captured output
`boom` and every transcode fails with exit code 1. -/
def oFail : Oracles :=
  ⟨fun _ => .error (str "boom"), fun _ => .error (str "boom"), fun _ => some mTest,
   fun _ _ => (1, [])⟩

/-- The search for the least `n ≥ 1` whose suffixed candidate basename is
unused, bounded by `names.length + 1` steps (enough by counting, since the
candidates are pairwise distinct). -/
def leastUnusedAux (names : List (List Char)) (pre : List Char) : Nat → Nat → Nat
  | 0, n => n
  | fuel + 1, n => if outCand pre n ∈ names then leastUnusedAux names pre fuel (n + 1) else n

/-- The least `n ≥ 1` with `outCand pre n ∉ names` (meaningful because such
an `n` always exists among `1, …, names.length + 1`). -/
def leastUnused (names : List (List Char)) (pre : List Char) : Nat :=
  leastUnusedAux names pre (names.length + 1) 1

/-- The error line logged by `convert_video` on a non-zero engine exit,
given the stripped stderr text. -/
def errConvLine (file s : List Char) : List Char :=
  str "Error converting file \"" ++ file ++ str "\": " ++ s ++ str "."

/-- Every decimal digit character is in the clean class `[A-Za-z0-9_.]`. -/
theorem cleanChar_digitChar : ∀ k, k < 10 → cleanChar (digitChar k) = true := by decide

/-- Characters of a rendered number are clean. -/
theorem cleanChar_of_mem_toDigitsAux :
    ∀ (fuel n : Nat) (c : Char), c ∈ toDigitsAux fuel n → cleanChar c = true := by
  intro fuel
  induction fuel with
  | zero => intro n c h; simp [toDigitsAux] at h
  | succ fuel ih =>
    intro n c h
    by_cases h10 : n < 10
    · simp only [toDigitsAux, if_pos h10, List.mem_singleton] at h
      subst h
      exact cleanChar_digitChar n h10
    · simp only [toDigitsAux, if_neg h10, List.mem_append, List.mem_singleton] at h
      rcases h with h | h
      · exact ih _ _ h
      · subst h
        exact cleanChar_digitChar _ (Nat.mod_lt _ (by norm_num))

/-- Characters of `str(n)` are clean. -/
theorem cleanChar_of_mem_toDigits {n : Nat} {c : Char} (h : c ∈ toDigits n) :
    cleanChar c = true :=
  cleanChar_of_mem_toDigitsAux _ _ _ h

/-- Characters of a sanitized name are clean: the filter keeps only
`[a-zA-Z0-9_ .]` and the map turns the surviving spaces into underscores. -/
theorem cleanChar_of_mem_sanitizedName {f : List Char} {c : Char}
    (h : c ∈ sanitizedName f) : cleanChar c = true := by
  rcases List.mem_map.mp h with ⟨a, ha, rfl⟩
  rcases List.mem_filter.mp ha with ⟨-, hall⟩
  by_cases hsp : a = ' '
  · subst hsp; decide
  · rw [if_neg hsp]
    simp [cleanChar, hall, hsp]

/-- Lemma: `os.path.splitext` splits its argument: stem plus extension is the whole
name. -/
theorem splitext_append (p : List Char) : (splitext p).1 ++ (splitext p).2 = p := by
  unfold splitext
  split
  · split
    · simp [List.take_append_drop]
    · simp
  · simp

/-- A character of the stem returned by `splitext` occurs in the name. -/
theorem mem_of_mem_splitext_fst {p : List Char} {c : Char} (h : c ∈ (splitext p).1) :
    c ∈ p := by
  have h2 : c ∈ (splitext p).1 ++ (splitext p).2 := List.mem_append_left _ h
  rwa [splitext_append] at h2

/-- A character of the extension returned by `splitext` occurs in the name. -/
theorem mem_of_mem_splitext_snd {p : List Char} {c : Char} (h : c ∈ (splitext p).2) :
    c ∈ p := by
  have h2 : c ∈ (splitext p).1 ++ (splitext p).2 := List.mem_append_right _ h
  rwa [splitext_append] at h2

/-- Characters of a suffixed collision candidate are clean when the stem and
extension are. -/
theorem cleanChar_of_mem_sanCand {pre ext : List Char} {n : Nat} {c : Char}
    (hpre : ∀ x ∈ pre, cleanChar x = true) (hext : ∀ x ∈ ext, cleanChar x = true)
    (h : c ∈ sanCand pre ext n) : cleanChar c = true := by
  simp only [sanCand, List.mem_append, List.mem_cons] at h
  rcases h with h | h | h | h
  · exact hpre c h
  · subst h; decide
  · exact cleanChar_of_mem_toDigits h
  · exact hext c h

/-- The collision loop only ever returns a name whose characters were already
clean or a clean suffixed candidate. -/
theorem cleanChar_of_mem_collisionLoop (fs : List (List Char)) (pre ext : List Char)
    (hpre : ∀ x ∈ pre, cleanChar x = true) (hext : ∀ x ∈ ext, cleanChar x = true) :
    ∀ (fuel counter : Nat) (name : List Char), (∀ x ∈ name, cleanChar x = true) →
      ∀ c ∈ collisionLoop fs pre ext name counter fuel, cleanChar c = true := by
  intro fuel
  induction fuel with
  | zero => intro counter name hname c hc; exact hname c hc
  | succ fuel ih =>
    intro counter name hname c hc
    unfold collisionLoop at hc
    by_cases hm : sanCand pre ext counter ∈ fs
    · rw [if_pos hm] at hc
      exact ih _ _ (fun x hx => cleanChar_of_mem_sanCand hpre hext hx) c hc
    · rw [if_neg hm] at hc
      exact hname c hc

/-- C2 (amended): for every file whose raw name contains a character of the
reserved set `~\/*?<>|:" ` (space included) — the condition the code actually
tests — the name the sanitizer computes for it contains only characters of
`[A-Za-z0-9_.]`, in particular no spaces and no reserved characters. -/
theorem C2_sanitizer_output_clean (fs : List (List Char)) (file : List Char)
    (_h : containsReserved file = true) :
    ∀ c ∈ newNameOf fs file, cleanChar c = true := by
  intro c hc
  unfold newNameOf at hc
  refine cleanChar_of_mem_collisionLoop fs _ _ ?_ ?_ _ _ _ ?_ c hc
  · intro x hx; exact cleanChar_of_mem_sanitizedName (mem_of_mem_splitext_fst hx)
  · intro x hx; exact cleanChar_of_mem_sanitizedName (mem_of_mem_splitext_snd hx)
  · intro x hx; exact cleanChar_of_mem_sanitizedName hx

/-- C2 witness: the reserved-set condition holds of `a b.mov` and the
theorem applies; the underscore of the resulting `a_b.mov` is clean. -/
theorem C2_sanitizer_output_clean_witness : cleanChar '_' = true :=
  C2_sanitizer_output_clean [] (str "a b.mov") (by decide) '_' (by decide)

/-- C2 counterexample: `a,b.mov` contains a comma — a character outside
`[A-Za-z0-9_. ]` — yet the sanitizer leaves it untouched, because the comma
is not in the reserved set the code tests; the file's name after the pass
still contains a character outside `[A-Za-z0-9_.]`. -/
theorem C2_comma_not_sanitized :
    prepare_files [str "a,b.mov"] = [str "a,b.mov"] ∧ allowedChar ',' = false
      ∧ (str "a,b.mov").all cleanChar = false := by decide

/-- C1: failing-input evaluation.  With `convert_media` containing
`a b.mov` and `a_b.mov`, the collision loop tests only the suffixed
candidate `a_b_1.mov` (which does not exist) and never the sanitized name
itself, so `a b.mov` is renamed onto the existing `a_b.mov` and overwrites
it: the folder ends with one file instead of two suffixed ones. -/
theorem C1_sanitizer_overwrites_on_collision :
    prepare_files [str "a b.mov", str "a_b.mov"] = [str "a_b.mov"]
      ∧ (prepare_files [str "a b.mov", str "a_b.mov"]).length = 1 := by decide

/-- C3: failing-input evaluation.  The seconds field is formatted with
`"{:.2f}"` and is not zero-padded to two digits, so 3725.4 seconds formats
as `01:02:5.40`, not `01:02:05.40` as the spec's `HH:MM:SS.ss` example
requires. -/
theorem C3_seconds_not_zero_padded :
    formatDuration (18627 / 5) = str "01:02:5.40" ∧ str "01:02:5.40" ≠ str "01:02:05.40" := by
  constructor
  · have e1 : (⌊((18627 : ℚ) / 5) / 3600⌋ : ℤ) = 1 := by rw [Int.floor_eq_iff]; norm_num
    have e5 : (⌊((18627 : ℚ) / 5) / 60⌋ : ℤ) = 62 := by rw [Int.floor_eq_iff]; norm_num
    have e2 : qmod ((18627 : ℚ) / 5) 3600 = 627 / 5 := by unfold qmod; rw [e1]; norm_num
    have e4 : qmod ((18627 : ℚ) / 5) 60 = 27 / 5 := by unfold qmod; rw [e5]; norm_num
    have e3 : (⌊((627 : ℚ) / 5) / 60⌋ : ℤ) = 2 := by rw [Int.floor_eq_iff]; norm_num
    have e6 : (⌊((27 : ℚ) / 5) * 100 + 1 / 2⌋ : ℤ) = 540 := by rw [Int.floor_eq_iff]; norm_num
    simp only [formatDuration, fmt2f, e2, e4, e1, e3, e6]
    decide
  · decide

/-- Lemma: `processFile` leaves the folder untouched for a file containing no
reserved character. -/
theorem processFile_eq_of_not_reserved {fs : List (List Char)} {f : List Char}
    (h : containsReserved f = false) : processFile fs f = fs := by
  simp [processFile, h]

/-- The `prepare_files` loop leaves any state untouched when no listed file
contains a reserved character. -/
theorem foldl_processFile_id :
    ∀ (l s : List (List Char)), (∀ f ∈ l, containsReserved f = false) →
      l.foldl processFile s = s := by
  intro l
  induction l with
  | nil => intro s _; rfl
  | cons f rest ih =>
    intro s h
    rw [List.foldl_cons, processFile_eq_of_not_reserved (h f (by simp))]
    exact ih s (fun g hg => h g (by simp [hg]))

/-- C8 (amended): a file that sanitizes to an empty stem is not rejected —
the sanitizer renames it to the dotfile-only name (`???.mov` becomes
`.mov`).  Files whose names contain none of the reserved characters
`~\/*?<>|:" ` (space included) pass through unchanged. -/
theorem C8_empty_stem_renamed_not_rejected (fs0 : List (List Char))
    (h : ∀ f ∈ fs0, containsReserved f = false) :
    prepare_files fs0 = fs0 ∧ prepare_files [str "???.mov"] = [str ".mov"] :=
  ⟨foldl_processFile_id fs0 fs0 h, by decide⟩

/-- C8 witness: `clip.mov` contains no reserved character and passes
through; `???.mov` is renamed to `.mov`. -/
theorem C8_empty_stem_renamed_not_rejected_witness :
    prepare_files [str "clip.mov"] = [str "clip.mov"]
      ∧ prepare_files [str "???.mov"] = [str ".mov"] :=
  C8_empty_stem_renamed_not_rejected [str "clip.mov"] (by decide)

/-- C8 counterexample: `???.mov` sanitizes to the empty stem (`splitext`
yields the dotfile-only `.mov` with empty extension) and the sanitizer
renames it to `.mov` instead of rejecting it. -/
theorem C8_dotfile_rename :
    sanitizedName (str "???.mov") = str ".mov"
      ∧ splitext (str ".mov") = (str ".mov", str "")
      ∧ prepare_files [str "???.mov"] = [str ".mov"]
      ∧ str ".mov" ≠ str "???.mov" := by decide

/-- A single step of the rename-oracle loop only attempts renames whose old
and new names differ, preserving that invariant of the call trace. -/
theorem stepR_attempted (ok : List Char → List Char → Bool)
    (st : List (List Char) × List (List Char × List Char)) (file : List Char)
    (h : ∀ p ∈ st.2, p.1 ≠ p.2) :
    ∀ p ∈ attemptedRenames (stepR ok st file), p.1 ≠ p.2 := by
  intro p hp
  by_cases h1 : containsReserved file = true
  · rw [stepR, if_pos h1] at hp
    by_cases h2 : file ≠ newNameOf st.1 file
    · rw [if_pos h2] at hp
      by_cases h3 : ok file (newNameOf st.1 file) = true
      · rw [if_pos h3] at hp
        simp only [attemptedRenames, List.mem_append, List.mem_singleton] at hp
        rcases hp with hp | hp
        · exact h p hp
        · subst hp; exact h2
      · rw [if_neg h3] at hp
        simp only [attemptedRenames, List.mem_append, List.mem_singleton] at hp
        rcases hp with hp | hp
        · exact h p hp
        · subst hp; exact h2
    · rw [if_neg h2] at hp
      exact h p hp
  · rw [stepR, if_neg h1] at hp
    exact h p hp

/-- The rename-oracle loop only ever attempts renames whose old and new
names differ. -/
theorem prepLoopR_attempted (ok : List Char → List Char → Bool) :
    ∀ (l : List (List Char)) (st : List (List Char) × List (List Char × List Char)),
      (∀ p ∈ st.2, p.1 ≠ p.2) →
      ∀ p ∈ attemptedRenames (prepLoopR ok st l), p.1 ≠ p.2 := by
  intro l
  induction l with
  | nil => intro st h p hp; exact h p hp
  | cons f rest ih =>
    intro st h p hp
    unfold prepLoopR at hp
    cases hstep : stepR ok st f with
    | ok st' =>
      rw [hstep] at hp
      refine ih st' ?_ p hp
      intro q hq
      refine stepR_attempted ok st f h q ?_
      rw [hstep]
      exact hq
    | error e =>
      rw [hstep] at hp
      refine stepR_attempted ok st f h p ?_
      rw [hstep]
      exact hp

/-- C7 (amended): a rename is attempted only when the sanitized name differs
from the raw name (every pair in the attempted-rename trace, including a
failing one, has distinct old and new names); but a rename failure is an
uncaught `OSError` that aborts `prepare_files` at once — the remaining
entries of the snapshot are never processed, instead of the failure being
logged and only that entry being excluded. -/
theorem C7_rename_iff_differs_and_failure_aborts :
    (∀ (ok : List Char → List Char → Bool) (fs0 : List (List Char)),
       ∀ p ∈ attemptedRenames (prepare_filesR ok fs0), p.1 ≠ p.2)
  ∧ (∀ (ok : List Char → List Char → Bool)
       (st : List (List Char) × List (List Char × List Char))
       (x : List Char) (l2 : List (List Char))
       (e : (List Char × List Char) × List (List Char × List Char)),
       stepR ok st x = .error e → prepLoopR ok st (x :: l2) = .error e) := by
  constructor
  · intro ok fs0 p hp
    exact prepLoopR_attempted ok fs0 (fs0, []) (by simp) p hp
  · intro ok st x l2 e hstep
    unfold prepLoopR
    rw [hstep]

/-- C7 witness: on the folder `[a b.mov, c d.mov]` with a rename oracle
failing on `a b.mov`, the failing pair has distinct names, and the loop
aborts at the first entry — regardless of the remaining list. -/
theorem C7_rename_iff_differs_and_failure_aborts_witness :
    str "a b.mov" ≠ str "a_b.mov"
      ∧ prepLoopR ok7 ([str "a b.mov", str "c d.mov"], []) [str "a b.mov", str "c d.mov"]
          = .error ((str "a b.mov", str "a_b.mov"), []) := by
  constructor
  · exact C7_rename_iff_differs_and_failure_aborts.1 ok7 [str "a b.mov"]
      (str "a b.mov", str "a_b.mov") (by decide)
  · exact C7_rename_iff_differs_and_failure_aborts.2 ok7
      ([str "a b.mov", str "c d.mov"], []) (str "a b.mov") [str "c d.mov"]
      ((str "a b.mov", str "a_b.mov"), []) rfl

/-- C7 counterexample: with a rename oracle failing on `a b.mov`, the whole
`prepare_files` pass raises — it returns the propagated exception with an
empty trace of performed renames, so nothing was logged about the failure
and the second entry `c d.mov` was never reached, contrary to the claim
that a rename failure is non-fatal and the remaining entries continue. -/
theorem C7_rename_failure_fatal :
    prepare_filesR ok7 [str "a b.mov", str "c d.mov"]
      = .error ((str "a b.mov", str "a_b.mov"), []) := rfl

/-- Lemma: `validate_files` is compositional: each file is probed independently and
the valid set and the log lines concatenate. -/
theorem validate_files_append (o : Oracles) :
    ∀ l1 l2 : List (List Char),
      validate_files o (l1 ++ l2)
        = ((validate_files o l1).1 ++ (validate_files o l2).1,
           (validate_files o l1).2 ++ (validate_files o l2).2) := by
  intro l1
  induction l1 with
  | nil => intro l2; simp [validate_files]
  | cons f rest ih =>
    intro l2
    cases hpk : o.probeStream (joinPath CONVERT_MEDIA_FOLDER f) with
    | ok out =>
      by_cases hv : containsVideo out = true
      · simp [validate_files, hpk, hv, ih]
      · simp [validate_files, hpk, hv, ih]
    | error e => simp [validate_files, hpk, ih]

/-- The conversion loop attempts every listed file, in order. -/
theorem convertBatch_files (o : Oracles) :
    ∀ (l : List (List Char)) (fsOut : List (List Char × Bool)),
      ((convertBatch o fsOut l).2.2).map Prod.fst = l := by
  intro l
  induction l with
  | nil => intro fsOut; rfl
  | cons f rest ih => intro fsOut; simp [convertBatch, ih]

/-- A file on which the engine always exits non-zero gets status `failed`
at its position in the outcome list. -/
theorem convertBatch_status_get (o : Oracles) (x : List Char)
    (hx : ∀ out, (o.engine (joinPath CONVERT_MEDIA_FOLDER x) out).1 ≠ 0) :
    ∀ (l1 l2 : List (List Char)) (fsOut : List (List Char × Bool)),
      (convertBatch o fsOut (l1 ++ x :: l2)).2.2[l1.length]? = some (x, false) := by
  intro l1
  induction l1 with
  | nil =>
    intro l2 fsOut
    have hrc := hx (get_output_file_path fsOut x)
    simp [convertBatch, convert_video, hrc]
  | cons f rest ih =>
    intro l2 fsOut
    simp [convertBatch, ih]

/-- A file on which the engine always exits non-zero has its error line in
the batch log. -/
theorem convertBatch_err_logged (o : Oracles) (x : List Char)
    (hx : ∀ out, (o.engine (joinPath CONVERT_MEDIA_FOLDER x) out).1 ≠ 0) :
    ∀ (l1 l2 : List (List Char)) (fsOut : List (List Char × Bool)),
      ∃ s, errConvLine x s ∈ (convertBatch o fsOut (l1 ++ x :: l2)).2.1 := by
  intro l1
  induction l1 with
  | nil =>
    intro l2 fsOut
    refine ⟨pyStrip (o.engine (joinPath CONVERT_MEDIA_FOLDER x)
      (get_output_file_path fsOut x)).2, ?_⟩
    have hrc := hx (get_output_file_path fsOut x)
    simp [convertBatch, convert_video, hrc, errConvLine]
  | cons f rest ih =>
    intro l2 fsOut
    obtain ⟨s, hs⟩ := ih l2 (convert_video o fsOut f).1
    refine ⟨s, ?_⟩
    simp only [convertBatch, List.mem_append]
    exact Or.inr hs

/-- C4: a probe failure (`ffprobe` exits non-zero) is caught and logged by
`validate_files`, the file is excluded from the valid set, and the files
after it are validated exactly as they would be on their own; a transcode
failure (`ffmpeg` exits non-zero) is recorded as a failed status with its
error line logged, and every file of the batch — before and after the
failing one — is still attempted.  A single bad file never aborts the
batch. -/
theorem C4_per_file_failures_contained :
    (∀ (o : Oracles) (l1 l2 : List (List Char)) (x e : List Char),
       o.probeStream (joinPath CONVERT_MEDIA_FOLDER x) = .error e →
       (validate_files o (l1 ++ x :: l2)).1
           = (validate_files o l1).1 ++ (validate_files o l2).1
         ∧ validateErrLine x ∈ (validate_files o (l1 ++ x :: l2)).2)
  ∧ (∀ (o : Oracles) (fsOut : List (List Char × Bool)) (l1 l2 : List (List Char))
       (x : List Char),
       (∀ out, (o.engine (joinPath CONVERT_MEDIA_FOLDER x) out).1 ≠ 0) →
       ((convertBatch o fsOut (l1 ++ x :: l2)).2.2).map Prod.fst = l1 ++ x :: l2
         ∧ (convertBatch o fsOut (l1 ++ x :: l2)).2.2[l1.length]? = some (x, false)
         ∧ ∃ s, errConvLine x s ∈ (convertBatch o fsOut (l1 ++ x :: l2)).2.1) := by
  constructor
  · intro o l1 l2 x e hx
    constructor
    · rw [validate_files_append o l1 (x :: l2)]
      simp [validate_files, hx]
    · rw [validate_files_append o l1 (x :: l2)]
      apply List.mem_append_right
      simp [validate_files, hx]
  · intro o fsOut l1 l2 x hx
    exact ⟨convertBatch_files o (l1 ++ x :: l2) fsOut,
      convertBatch_status_get o x hx l1 l2 fsOut,
      convertBatch_err_logged o x hx l1 l2 fsOut⟩

/-- C4 witness: on the oracle whose probe fails with `boom` and whose engine
always exits 1, the single file `x.mov` is excluded from the valid set but
logged, and the conversion loop still attempts it, marking it failed. -/
theorem C4_per_file_failures_contained_witness :
    ((validate_files oFail ([] ++ str "x.mov" :: [])).1
        = (validate_files oFail []).1 ++ (validate_files oFail []).1
      ∧ validateErrLine (str "x.mov") ∈ (validate_files oFail ([] ++ str "x.mov" :: [])).2)
  ∧ (((convertBatch oFail [] ([] ++ str "x.mov" :: [])).2.2).map Prod.fst
        = [] ++ str "x.mov" :: []
      ∧ (convertBatch oFail [] ([] ++ str "x.mov" :: [])).2.2[([] : List (List Char)).length]?
          = some (str "x.mov", false)
      ∧ ∃ s, errConvLine (str "x.mov") s ∈ (convertBatch oFail [] ([] ++ str "x.mov" :: [])).2.1) :=
  ⟨C4_per_file_failures_contained.1 oFail [] [] (str "x.mov") (str "boom") rfl,
   C4_per_file_failures_contained.2 oFail [] [] [] (str "x.mov") (fun _ => Nat.one_ne_zero)⟩

/-- Decimal digit characters decode back to their value. -/
theorem digitChar_toNat : ∀ k, k < 10 → (digitChar k).toNat = 48 + k := by decide

/-- Reading back the rendered digits of `n` gives `n` (with enough fuel). -/
theorem fromDigits_toDigitsAux :
    ∀ (fuel n : Nat), n < fuel → fromDigits (toDigitsAux fuel n) = n := by
  intro fuel
  induction fuel with
  | zero => intro n h; exact absurd h (Nat.not_lt_zero n)
  | succ fuel ih =>
    intro n h
    by_cases h10 : n < 10
    · simp only [toDigitsAux, if_pos h10, fromDigits, List.foldl_cons, List.foldl_nil]
      rw [digitChar_toNat n h10]
      omega
    · have hrec : n / 10 < fuel := by
        have h1 : n / 10 < n := Nat.div_lt_self (by omega) (by norm_num)
        omega
      have hv := ih (n / 10) hrec
      unfold fromDigits at hv ⊢
      simp only [toDigitsAux, if_neg h10]
      rw [List.foldl_append, hv]
      simp only [List.foldl_cons, List.foldl_nil]
      rw [digitChar_toNat _ (Nat.mod_lt n (by norm_num))]
      omega

/-- Rendering `str(n)` is injective. -/
theorem toDigits_inj {m n : Nat} (h : toDigits m = toDigits n) : m = n := by
  have hm := fromDigits_toDigitsAux (m + 1) m (Nat.lt_succ_self m)
  have hn := fromDigits_toDigitsAux (n + 1) n (Nat.lt_succ_self n)
  unfold toDigits at h
  rw [← hm, ← hn, h]

/-- Distinct counters give distinct suffixed output candidates. -/
theorem outCand_inj {pre : List Char} {m n : Nat} (h : outCand pre m = outCand pre n) :
    m = n := by
  unfold outCand at h
  exact toDigits_inj (List.append_cancel_left (List.append_cancel_right h))

/-- The allocation loop returns a name that is not listed unchanged. -/
theorem allocLoop_not_mem (names : List (List Char)) (pre : List Char) :
    ∀ (fuel counter : Nat) (name : List Char), name ∉ names →
      allocLoop names pre name counter fuel = name := by
  intro fuel counter name h
  cases fuel with
  | zero => rfl
  | succ fuel => rw [allocLoop, if_neg h]

/-- With enough fuel, the allocation loop started on a listed name returns
the candidate of the least unused counter at or above its starting value. -/
theorem allocLoop_finds (names : List (List Char)) (pre : List Char) :
    ∀ (fuel counter : Nat) (name : List Char) (m : Nat),
      name ∈ names → counter ≤ m → outCand pre m ∉ names →
      (∀ i, counter ≤ i → i < m → outCand pre i ∈ names) →
      m < counter + fuel →
      allocLoop names pre name counter fuel = outCand pre m := by
  intro fuel
  induction fuel with
  | zero => intro counter name m _ hcm _ _ hlt; exact absurd hlt (by omega)
  | succ fuel ih =>
    intro counter name m hname hcm hm hall hlt
    rw [allocLoop, if_pos hname]
    by_cases heq : m = counter
    · subst heq
      exact allocLoop_not_mem names pre fuel (m + 1) _ hm
    · refine ih (counter + 1) (outCand pre counter) m ?_ (by omega) hm ?_ (by omega)
      · exact hall counter le_rfl (by omega)
      · intro i hi1 hi2
        exact hall i (by omega) hi2

/-- Counting: among the candidates `1, …, names.length + 1` at least one
basename is unused, because they are pairwise distinct. -/
theorem exists_unused_outCand (names : List (List Char)) (pre : List Char) :
    ∃ n, 1 ≤ n ∧ n ≤ names.length + 1 ∧ outCand pre n ∉ names := by
  by_contra hc
  push_neg at hc
  have hsub : ∀ a ∈ Finset.Icc 1 (names.length + 1), outCand pre a ∈ names.toFinset := by
    intro a ha
    rw [Finset.mem_Icc] at ha
    exact List.mem_toFinset.mpr (hc a ha.1 ha.2)
  have hinj : Set.InjOn (outCand pre) ↑(Finset.Icc 1 (names.length + 1)) :=
    fun a _ b _ hab => outCand_inj hab
  have hcard := Finset.card_le_card_of_injOn (outCand pre) hsub hinj
  rw [Nat.card_Icc] at hcard
  have htf := names.toFinset_card_le
  omega

/-- The bounded search returns the least counter at or above its start whose
candidate is unused, provided one exists within its fuel. -/
theorem leastUnusedAux_props (names : List (List Char)) (pre : List Char) :
    ∀ (fuel start : Nat),
      (∃ k, start ≤ k ∧ k < start + fuel ∧ outCand pre k ∉ names) →
      start ≤ leastUnusedAux names pre fuel start
        ∧ outCand pre (leastUnusedAux names pre fuel start) ∉ names
        ∧ ∀ i, start ≤ i → i < leastUnusedAux names pre fuel start →
            outCand pre i ∈ names := by
  intro fuel
  induction fuel with
  | zero =>
    intro start h
    obtain ⟨k, h1, h2, -⟩ := h
    exact absurd h2 (by omega)
  | succ fuel ih =>
    intro start h
    by_cases hs : outCand pre start ∈ names
    · rw [leastUnusedAux, if_pos hs]
      obtain ⟨k, h1, h2, h3⟩ := h
      have hk : start + 1 ≤ k := by
        rcases Nat.eq_or_lt_of_le h1 with rfl | hlt
        · exact absurd hs h3
        · omega
      obtain ⟨p1, p2, p3⟩ := ih (start + 1) ⟨k, hk, by omega, h3⟩
      refine ⟨by omega, p2, ?_⟩
      intro i hi1 hi2
      rcases Nat.eq_or_lt_of_le hi1 with rfl | hlt
      · exact hs
      · exact p3 i (by omega) hi2
    · rw [leastUnusedAux, if_neg hs]
      exact ⟨le_rfl, hs, fun i hi1 hi2 => absurd hi2 (by omega)⟩

/-- A suffix of the basename is a suffix of the joined path. -/
theorem suffix_joinPath {l n : List Char} (d : List Char) (h : l <:+ n) :
    l <:+ joinPath d n := by
  obtain ⟨t, ht⟩ := h
  refine ⟨d ++ '/' :: t, ?_⟩
  rw [← ht]
  simp [joinPath, List.append_assoc]

/-- The unsuffixed candidate basename ends in `.mp4`. -/
theorem mp4_suffix_outBase (pre : List Char) : str ".mp4" <:+ outBase pre := by
  refine ⟨pre ++ str "_converted", ?_⟩
  have h : str "_converted" ++ str ".mp4" = str "_converted.mp4" := by decide
  rw [List.append_assoc, h, outBase]

/-- Every suffixed candidate basename ends in `.mp4`. -/
theorem mp4_suffix_outCand (pre : List Char) (n : Nat) : str ".mp4" <:+ outCand pre n :=
  ⟨pre ++ str "_converted_" ++ toDigits n, rfl⟩

/-- C5: for a source filename with stem `S = (splitext file).1`, the path
allocator returns `converted_media/S_converted.mp4` when that basename is
unused; otherwise it returns `converted_media/S_converted_<n>.mp4` for the
least `n ≥ 1` whose basename is unused; and the returned path always ends in
`.mp4` regardless of the source extension. -/
theorem C5_path_allocator (fs : List (List Char × Bool)) (file : List Char) :
    (outBase (splitext file).1 ∉ outNames fs →
       get_output_file_path fs file
         = joinPath CONVERTED_MEDIA_FOLDER (outBase (splitext file).1))
  ∧ (outBase (splitext file).1 ∈ outNames fs →
       get_output_file_path fs file
           = joinPath CONVERTED_MEDIA_FOLDER
               (outCand (splitext file).1 (leastUnused (outNames fs) (splitext file).1))
         ∧ 1 ≤ leastUnused (outNames fs) (splitext file).1
         ∧ outCand (splitext file).1 (leastUnused (outNames fs) (splitext file).1) ∉ outNames fs
         ∧ ∀ m, 1 ≤ m → m < leastUnused (outNames fs) (splitext file).1 →
             outCand (splitext file).1 m ∈ outNames fs)
  ∧ str ".mp4" <:+ get_output_file_path fs file := by
  have hlen : (outNames fs).length = fs.length := List.length_map _ _
  have h1 : outBase (splitext file).1 ∉ outNames fs →
      get_output_file_path fs file
        = joinPath CONVERTED_MEDIA_FOLDER (outBase (splitext file).1) := by
    intro hnm
    unfold get_output_file_path allocName
    rw [allocLoop_not_mem _ _ _ _ _ hnm]
  have h2 : outBase (splitext file).1 ∈ outNames fs →
      get_output_file_path fs file
          = joinPath CONVERTED_MEDIA_FOLDER
              (outCand (splitext file).1 (leastUnused (outNames fs) (splitext file).1))
        ∧ 1 ≤ leastUnused (outNames fs) (splitext file).1
        ∧ outCand (splitext file).1 (leastUnused (outNames fs) (splitext file).1) ∉ outNames fs
        ∧ ∀ m, 1 ≤ m → m < leastUnused (outNames fs) (splitext file).1 →
            outCand (splitext file).1 m ∈ outNames fs := by
    intro hm
    obtain ⟨n0, hn1, hn2, hn3⟩ := exists_unused_outCand (outNames fs) (splitext file).1
    obtain ⟨hN1, hN2, hN3⟩ := leastUnusedAux_props (outNames fs) (splitext file).1
      ((outNames fs).length + 1) 1 ⟨n0, hn1, by omega, hn3⟩
    have hdef : leastUnusedAux (outNames fs) (splitext file).1 ((outNames fs).length + 1) 1
        = leastUnused (outNames fs) (splitext file).1 := rfl
    rw [hdef] at hN1 hN2 hN3
    have hNle : leastUnused (outNames fs) (splitext file).1 ≤ n0 := by
      by_contra hgt
      exact hn3 (hN3 n0 hn1 (by omega))
    refine ⟨?_, hN1, hN2, hN3⟩
    unfold get_output_file_path allocName
    congr 1
    exact allocLoop_finds (outNames fs) (splitext file).1 (fs.length + 2) 1 _
      (leastUnused (outNames fs) (splitext file).1) hm hN1 hN2
      (fun i hi1 hi2 => hN3 i hi1 hi2) (by omega)
  refine ⟨h1, h2, ?_⟩
  by_cases hb : outBase (splitext file).1 ∈ outNames fs
  · obtain ⟨heq, -, -, -⟩ := h2 hb
    rw [heq]
    exact suffix_joinPath _ (mp4_suffix_outCand _ _)
  · rw [h1 hb]
    exact suffix_joinPath _ (mp4_suffix_outBase _)

/-- C5 witness: with an empty output folder the allocator returns
`clip_converted.mp4`; with `clip_converted.mp4` present and
`clip_converted_1.mp4` absent it returns `converted_media/clip_converted_1.mp4`,
as in the spec's example. -/
theorem C5_path_allocator_witness :
    get_output_file_path [] (str "clip.mov")
        = joinPath CONVERTED_MEDIA_FOLDER (outBase (splitext (str "clip.mov")).1)
      ∧ get_output_file_path [(str "clip_converted.mp4", true)] (str "clip.mov")
        = str "converted_media/clip_converted_1.mp4" := by
  constructor
  · exact (C5_path_allocator [] (str "clip.mov")).1 (by decide)
  · obtain ⟨heq, hge, -, h3⟩ :=
      (C5_path_allocator [(str "clip_converted.mp4", true)] (str "clip.mov")).2.1 (by decide)
    have hN : leastUnused (outNames [(str "clip_converted.mp4", true)])
        (splitext (str "clip.mov")).1 = 1 := by
      by_contra hne
      have hmem := h3 1 le_rfl (by omega)
      revert hmem
      decide
    rw [heq, hN]
    decide

/-- Prepending no lines changes nothing. -/
theorem prependE_nil (r : Except (List (List Char)) (List (List Char))) :
    prependE [] r = r := by
  cases r with
  | ok l => rfl
  | error l => rfl

/-- Prepending composes by concatenation. -/
theorem prependE_prependE (a b : List (List Char))
    (r : Except (List (List Char)) (List (List Char))) :
    prependE a (prependE b r) = prependE (a ++ b) r := by
  cases r with
  | ok l => simp [prependE]
  | error l => simp [prependE]

/-- Unfolding step: a file whose metadata probe raises
`CalledProcessError` is logged and the loop continues. -/
theorem inspectLoop_probe_err_step (o : Oracles) (folder label errHead : List Char)
    (x e : List Char) (hx : o.probeMeta (joinPath folder x) = .error e)
    (l : List (List Char)) :
    inspectLoop o folder label errHead (x :: l)
      = prependE [inspectErrLine errHead x e] (inspectLoop o folder label errHead l) := by
  simp [inspectLoop, hx]

/-- Unfolding step: a successful probe whose output does not parse raises an
exception that is not caught; nothing further from this call is logged. -/
theorem inspectLoop_parse_none_step (o : Oracles) (folder label errHead : List Char)
    (x raw : List Char) (hx : o.probeMeta (joinPath folder x) = .ok raw)
    (hraw : o.parseMeta raw = none) (l : List (List Char)) :
    inspectLoop o folder label errHead (x :: l) = .error [] := by
  simp [inspectLoop, hx, hraw]

/-- The inspection loop is compositional over a successfully inspected
front. -/
theorem inspectLoop_append_ok (o : Oracles) (folder label errHead : List Char) :
    ∀ (l1 l2 L1 : List (List Char)),
      inspectLoop o folder label errHead l1 = .ok L1 →
      inspectLoop o folder label errHead (l1 ++ l2)
        = prependE L1 (inspectLoop o folder label errHead l2) := by
  intro l1
  induction l1 with
  | nil =>
    intro l2 L1 h
    simp only [inspectLoop] at h
    cases h
    simp [prependE_nil]
  | cons f rest ih =>
    intro l2 L1 h
    simp only [List.cons_append]
    cases hp : o.probeMeta (joinPath folder f) with
    | error e =>
      rw [inspectLoop_probe_err_step o folder label errHead f e hp] at h ⊢
      cases hr : inspectLoop o folder label errHead rest with
      | ok L =>
        rw [hr] at h
        simp only [prependE] at h
        cases h
        rw [ih l2 L hr, prependE_prependE]
      | error L =>
        rw [hr] at h
        simp only [prependE] at h
        cases h
    | ok raw =>
      cases hm : o.parseMeta raw with
      | none =>
        rw [inspectLoop_parse_none_step o folder label errHead f raw hp hm] at h
        cases h
      | some m =>
        have hstep : ∀ l' : List (List Char),
            inspectLoop o folder label errHead (f :: l')
              = prependE (fileReport label f m) (inspectLoop o folder label errHead l') := by
          intro l'
          simp [inspectLoop, hp, hm]
        rw [hstep] at h ⊢
        cases hr : inspectLoop o folder label errHead rest with
        | ok L =>
          rw [hr] at h
          simp only [prependE] at h
          cases h
          rw [ih l2 L hr, prependE_prependE]
        | error L =>
          rw [hr] at h
          simp only [prependE] at h
          cases h

/-- C6 (amended): in the inspector, a probe invocation failure (non-zero
exit) is contained at file granularity — its error line is recorded and the
loop proceeds to the remaining files exactly as it would on them alone; but
a successful probe returning unparsable structured output (malformed JSON or
a missing field) raises an exception the `except` clause does not catch:
the inspection aborts with only the previously logged lines, and no
remaining file is attempted. -/
theorem C6_probe_contained_malformed_aborts :
    (∀ (o : Oracles) (l1 l2 : List (List Char)) (x e : List Char)
       (L1 : List (List Char)),
       o.probeMeta (joinPath CONVERT_MEDIA_FOLDER x) = .error e →
       inspectFilesLoop o l1 = .ok L1 →
       inspectFilesLoop o (l1 ++ x :: l2)
         = prependE
             (L1 ++ [inspectErrLine
               (str "Error in `inspect_file` function running ffprobe for file \"") x e])
             (inspectFilesLoop o l2))
  ∧ (∀ (o : Oracles) (l1 l2 : List (List Char)) (x raw : List Char)
       (L1 : List (List Char)),
       o.probeMeta (joinPath CONVERT_MEDIA_FOLDER x) = .ok raw →
       o.parseMeta raw = none →
       inspectFilesLoop o l1 = .ok L1 →
       inspectFilesLoop o (l1 ++ x :: l2) = .error L1) := by
  constructor
  · intro o l1 l2 x e L1 hx h1
    unfold inspectFilesLoop at h1 ⊢
    rw [inspectLoop_append_ok o _ _ _ l1 (x :: l2) L1 h1,
      inspectLoop_probe_err_step o _ _ _ x e hx l2, prependE_prependE]
  · intro o l1 l2 x raw L1 hx hraw h1
    unfold inspectFilesLoop at h1 ⊢
    rw [inspectLoop_append_ok o _ _ _ l1 (x :: l2) L1 h1,
      inspectLoop_parse_none_step o _ _ _ x raw hx hraw l2]
    simp [prependE]

/-- C6 witness: with the always-failing probe, the error for `x.mov` is
recorded and the loop continues; with the oracle whose output for `bad.mov`
is malformed, the loop aborts before reaching any later file. -/
theorem C6_probe_contained_malformed_aborts_witness :
    inspectFilesLoop oFail ([] ++ str "x.mov" :: [])
        = prependE
            ([] ++ [inspectErrLine
              (str "Error in `inspect_file` function running ffprobe for file \"")
              (str "x.mov") (str "boom")])
            (inspectFilesLoop oFail [])
      ∧ inspectFilesLoop oTest ([] ++ str "bad.mov" :: [str "good.mov"]) = .error [] :=
  ⟨C6_probe_contained_malformed_aborts.1 oFail [] [] (str "x.mov") (str "boom") [] rfl rfl,
   C6_probe_contained_malformed_aborts.2 oTest [] [str "good.mov"] (str "bad.mov")
     (joinPath CONVERT_MEDIA_FOLDER (str "bad.mov")) [] rfl rfl rfl⟩

/-- C6 counterexample: on a batch of two files where the first probe's
output is malformed JSON, `inspect_files` aborts with only its header line
logged — the `File: good.mov` report of the second file never happens, so
the error is not contained at file granularity. -/
theorem C6_malformed_json_aborts_batch :
    inspect_files oTest [str "bad.mov", str "good.mov"]
        = .error [str "Inspecting validated files:"]
      ∧ (str "File: " ++ str "good.mov") ∉ [str "Inspecting validated files:"] :=
  ⟨rfl, by decide⟩

/-- For a non-empty argument, the inspector's header line is among the lines
it emits, whether it completes or aborts. -/
theorem inspect_files_header_mem (o : Oracles) (valid : List (List Char))
    (h : ¬valid = []) :
    str "Inspecting validated files:" ∈ payloadOf (inspect_files o valid) := by
  unfold inspect_files
  rw [if_neg h]
  cases hr : inspectFilesLoop o valid with
  | ok l => simp [payloadOf, prependE]
  | error l => simp [payloadOf, prependE]

/-- C9 (amended): with an empty validated set, the orchestrator skips
pre-inspection, conversion, and post-inspection entirely and logs only the
completion line — in particular no notice that no valid video files were
found is emitted (the message inside `inspect_files` is unreachable because
`inspect_files` is only invoked for a non-empty set); with a non-empty
validated set, the bracketed stages run, witnessed by the inspection header
among the emitted lines. -/
theorem C9_empty_set_short_circuits :
    (∀ (o : Oracles) (fsOut : List (List Char × Bool)) (bid : List Char),
       mainAfterValidate o fsOut [] bid = .ok [completeLine bid])
  ∧ (∀ (o : Oracles) (fsOut : List (List Char × Bool)) (bid : List Char)
       (valid : List (List Char)), valid ≠ [] →
       str "Inspecting validated files:" ∈ payloadOf (mainAfterValidate o fsOut valid bid)) := by
  constructor
  · intro o fsOut bid
    rfl
  · intro o fsOut bid valid h
    have hh := inspect_files_header_mem o valid h
    unfold mainAfterValidate
    rw [if_neg h]
    split
    · next l hi =>
      rw [hi] at hh
      exact hh
    · next pre hi =>
      rw [hi] at hh
      simp only [payloadOf] at hh
      split
      · next l hc =>
        exact List.mem_append_left _ (List.mem_append_left _ hh)
      · next post hc =>
        exact List.mem_append_left _
          (List.mem_append_left _ (List.mem_append_left _ hh))

/-- C9 witness: the empty set short-circuits to the completion line alone,
and a singleton valid set makes the inspection header appear. -/
theorem C9_empty_set_short_circuits_witness :
    mainAfterValidate oTest [] [] (str "b") = .ok [completeLine (str "b")]
      ∧ str "Inspecting validated files:"
          ∈ payloadOf (mainAfterValidate oTest [] [str "v.mov"] (str "b")) :=
  ⟨C9_empty_set_short_circuits.1 oTest [] (str "b"),
   C9_empty_set_short_circuits.2 oTest [] (str "b") [str "v.mov"] (by decide)⟩

/-- C9 counterexample: with an empty validated set, the run's entire log is
the completion line; the notice `No valid video files found in the
convert_media folder.` claimed by the spec is not among the emitted lines. -/
theorem C9_no_notice_logged :
    mainAfterValidate oTest [] [] (str "b") = .ok [completeLine (str "b")]
      ∧ str "No valid video files found in the convert_media folder."
          ∉ [completeLine (str "b")] :=
  ⟨rfl, by decide⟩

/-- One conversion never removes entries from the output folder. -/
theorem convert_video_fs_mono (o : Oracles) (fsOut : List (List Char × Bool))
    (file : List Char) : ∀ e ∈ fsOut, e ∈ (convert_video o fsOut file).1 := by
  intro e he
  simp only [convert_video]
  split
  · exact List.mem_append_left _ he
  · exact he

/-- The conversion loop never removes entries from the output folder. -/
theorem convertBatch_fs_mono (o : Oracles) :
    ∀ (l : List (List Char)) (fsOut : List (List Char × Bool)) (e : List Char × Bool),
      e ∈ fsOut → e ∈ (convertBatch o fsOut l).1 := by
  intro l
  induction l with
  | nil => intro fsOut e he; exact he
  | cons f rest ih =>
    intro fsOut e he
    simp only [convertBatch]
    exact ih (convert_video o fsOut f).1 e (convert_video_fs_mono o fsOut f e he)

/-- With total probe and parse oracles, the inspection loop completes and
reports every listed file. -/
theorem inspectLoop_total (o : Oracles) (folder label errHead : List Char)
    (hprobe : ∀ p, ∃ r, o.probeMeta p = .ok r)
    (hparse : ∀ raw, ∃ m, o.parseMeta raw = some m) :
    ∀ files : List (List Char), ∃ L, inspectLoop o folder label errHead files = .ok L
      ∧ ∀ f ∈ files, (label ++ f) ∈ L := by
  intro files
  induction files with
  | nil => exact ⟨[], rfl, by simp⟩
  | cons f rest ih =>
    obtain ⟨L, hL, hmem⟩ := ih
    obtain ⟨r, hr⟩ := hprobe (joinPath folder f)
    obtain ⟨m, hm⟩ := hparse r
    refine ⟨fileReport label f m ++ L, ?_, ?_⟩
    · simp [inspectLoop, hr, hm, hL, prependE]
    · intro g hg
      rcases List.mem_cons.mp hg with rfl | hg2
      · exact List.mem_append_left _ (by simp [fileReport])
      · exact List.mem_append_right _ (hmem g hg2)

/-- With total probe and parse oracles, `inspect_converted_files` completes
and reports every regular file of its folder listing. -/
theorem inspect_converted_files_total (o : Oracles)
    (hprobe : ∀ p, ∃ r, o.probeMeta p = .ok r)
    (hparse : ∀ raw, ∃ m, o.parseMeta raw = some m)
    (entries : List (List Char × Bool)) :
    ∃ L, inspect_converted_files o entries = .ok L
      ∧ ∀ f, (f, true) ∈ entries → (str "Converted File: " ++ f) ∈ L := by
  unfold inspect_converted_files
  by_cases h : ((entries.filter fun e => e.2).map fun e => e.1) = []
  · rw [if_pos h]
    refine ⟨_, rfl, ?_⟩
    intro f hf
    exfalso
    have hmem : f ∈ (entries.filter fun e => e.2).map (fun e => e.1) :=
      List.mem_map.mpr ⟨(f, true), List.mem_filter.mpr ⟨hf, rfl⟩, rfl⟩
    rw [h] at hmem
    exact absurd hmem (List.not_mem_nil f)
  · rw [if_neg h]
    obtain ⟨L, hL, hmem⟩ := inspectLoop_total o CONVERTED_MEDIA_FOLDER
      (str "Converted File: ")
      (str "Error in `inspect_converted_files` function running ffprobe for file \"")
      hprobe hparse ((entries.filter fun e => e.2).map fun e => e.1)
    unfold inspectConvLoop
    rw [hL]
    refine ⟨_, rfl, ?_⟩
    intro f hf
    have hf2 : f ∈ (entries.filter fun e => e.2).map (fun e => e.1) :=
      List.mem_map.mpr ⟨(f, true), List.mem_filter.mpr ⟨hf, rfl⟩, rfl⟩
    have := hmem f hf2
    exact List.mem_append_right _ (List.mem_append_left _ this)

/-- C10: the post-conversion inspection runs over the regular files present
in `converted_media` when it is called — the folder state after the batch,
which still contains every entry that was there before the batch (converted
files left by earlier runs included, since conversion only adds files) —
so its report covers each of them, not only the current batch's outputs. -/
theorem C10_post_inspection_covers_output_folder (o : Oracles)
    (fsOut : List (List Char × Bool)) (valid : List (List Char))
    (hprobe : ∀ p, ∃ r, o.probeMeta p = .ok r)
    (hparse : ∀ raw, ∃ m, o.parseMeta raw = some m) :
    (∀ e ∈ fsOut, e ∈ (convertBatch o fsOut valid).1)
  ∧ ∀ f, (f, true) ∈ (convertBatch o fsOut valid).1 →
      (str "Converted File: " ++ f)
        ∈ payloadOf (inspect_converted_files o (convertBatch o fsOut valid).1) := by
  refine ⟨fun e he => convertBatch_fs_mono o valid fsOut e he, ?_⟩
  intro f hf
  obtain ⟨L, hL, hmem⟩ :=
    inspect_converted_files_total o hprobe hparse (convertBatch o fsOut valid).1
  rw [hL]
  exact hmem f hf

/-- C10 witness: a pre-existing `old_converted.mp4` left by an earlier run
survives the current batch (whose only conversion fails) and is reported by
the post-conversion inspection. -/
theorem C10_post_inspection_covers_output_folder_witness :
    (str "old_converted.mp4", true)
        ∈ (convertBatch oAll [(str "old_converted.mp4", true)] [str "v.mov"]).1
      ∧ (str "Converted File: " ++ str "old_converted.mp4")
          ∈ payloadOf (inspect_converted_files oAll
              (convertBatch oAll [(str "old_converted.mp4", true)] [str "v.mov"]).1) := by
  have h := C10_post_inspection_covers_output_folder oAll
    [(str "old_converted.mp4", true)] [str "v.mov"]
    (fun _ => ⟨[], rfl⟩) (fun _ => ⟨mTest, rfl⟩)
  exact ⟨h.1 _ (by decide), h.2 (str "old_converted.mp4") (h.1 _ (by decide))⟩

end Mediaconv
